import Mathlib

/-!
Verification development for the PartitionAlloc core: a shallow embedding of

* the pool bitmap allocator (`AddressPoolManager::Pool::FindChunk` /
  `FreeChunk`, `src/address_pool_manager.cc`),
* the GigaCage pool-membership queries (`src/partition_address_space.h`),
* the pool-offset freelist entry (`src/src/partition_alloc/pool_offset_freelist.h`),
* the scheduler-loop quarantine branches
  (`src/src/partition_alloc/scheduler_loop_quarantine.cc`), and
* the quarantine runtime-stats tracker
  (`src/src/partition_alloc/scheduler_loop_quarantine_runtime_stats.cc`),

followed by theorems settling the specified properties.  Machine words
(`uintptr_t`, `size_t`) are modelled as `Nat`, with truncation to 64 bits made
explicit where it matters; `int64_t` quantities are modelled as `Int`.
-/

namespace PartitionAllocProof

/-! ## Constants

`kSuperPageShift` / `kSuperPageSize` live in `partition_alloc_constants.h`,
which is not part of the sources; the spec fixes only that a super-page is a
power of two ("implementation chooses one value, e.g. 2 MiB").  We use the
2 MiB value.  None of the theorems below depend on the particular exponent. -/

/-- Modelled from the spec: super-page granularity, a fixed power of two
(2 MiB). -/
def kSuperPageShift : Nat := 21

def kSuperPageSize : Nat := 2 ^ kSuperPageShift

def kSuperPageOffsetMask : Nat := kSuperPageSize - 1

/-- The all-ones 64-bit word, used to express `~x` on `uintptr_t` as
`wordMask ^^^ x`. -/
def wordMask : Nat := 2 ^ 64 - 1

/-- Bitwise complement within a 64-bit word (`~x` on `uintptr_t`). -/
def compl64 (x : Nat) : Nat := wordMask ^^^ x

def kSuperPageBaseMask : Nat := compl64 kSuperPageOffsetMask

/-- `base::bits::Align(x, a)`: rounds `x` up to the next multiple of the
power-of-two `a` (the source computes `(x + a - 1) & ~(a - 1)`, which for a
power-of-two `a` equals the arithmetic round-up used here). -/
def alignUp (x a : Nat) : Nat := (x + a - 1) / a * a

/-! ## Pool bitmap allocator (`AddressPoolManager::Pool`)

The occupancy bitset `alloc_bitset_` is modelled as the `Finset Nat` of set
bit indices.  `address_end_` exists in the source only under `DCHECK_IS_ON()`;
we keep it since the debug checks are modelled. -/

structure Pool where
  totalBits : Nat
  addressBegin : Nat
  addressEnd : Nat
  allocBitset : Finset Nat
  bitHint : Nat
  deriving DecidableEq

/-- The inner scan of `Pool::FindChunk` (the `for (; curr_bit < end_bit; ...)`
loop): examines bits `cur, cur+1, ...` (`k` of them, where the caller passes
`k = end_bit - cur`), pushing `beg` past every set bit, bumping the hint past
set bits it is pointing at, and clearing `found` on any set bit.  Returns the
final `(beg_bit, bit_hint_, found)`. -/
def innerScanAux (bs : Finset Nat) : Nat → Nat → Nat → Nat → Bool → Nat × Nat × Bool
  | 0, beg, _cur, hint, found => (beg, hint, found)
  | k + 1, beg, cur, hint, found =>
    if cur ∈ bs then
      innerScanAux bs k (cur + 1) (cur + 1) (if hint = cur then hint + 1 else hint) false
    else
      innerScanAux bs k beg (cur + 1) hint found

/-- The outer `while (true)` loop of `Pool::FindChunk`.  Each iteration either
fails (`end_bit > total_bits_`), allocates (`found` survived the inner scan),
or retries with `beg` pushed past the set bits found.  `cur` strictly
increases and stays `≤ total` on every retry, so `total + 1` rounds of fuel
are more than the loop can consume; the fuel-exhausted branch returns the
same failure value the guard would. -/
def findChunkLoopAux (bs : Finset Nat) (total need : Nat) :
    Nat → Nat → Nat → Nat → Finset Nat × Nat × Option Nat
  | 0, _beg, _cur, hint => (bs, hint, none)
  | fuel + 1, beg, cur, hint =>
    if beg + need > total then (bs, hint, none)
    else
      match innerScanAux bs (beg + need - cur) beg cur hint true with
      | (_beg', hint', true) =>
        (bs ∪ Finset.Ico beg (beg + need),
         if hint' = beg then beg + need else hint',
         some beg)
      | (beg', hint', false) =>
        findChunkLoopAux bs total need fuel beg' (beg + need) hint'

/-- `required_size >> kSuperPageShift` for the aligned request, i.e. the
number of occupancy bits a request occupies. -/
def needBits (requestedSize : Nat) : Nat :=
  alignUp requestedSize kSuperPageSize / kSuperPageSize

/-- `Pool::FindChunk(requested_size)`: first-fit scan starting at the hint.
Returns the updated pool and the allocated address (`none` models returning
`0`, i.e. failure). -/
def Pool.findChunk (p : Pool) (requestedSize : Nat) : Pool × Option Nat :=
  let r := findChunkLoopAux p.allocBitset p.totalBits (needBits requestedSize) (p.totalBits + 1)
      p.bitHint p.bitHint p.bitHint
  ({ p with allocBitset := r.1, bitHint := r.2.1 },
   r.2.2.map fun begBit => p.addressBegin + begBit * kSuperPageSize)

/-- `Pool::FreeChunk(address, free_size)`.  The `DCHECK`s (address alignment,
range inside the pool, every bit of the range set) are modelled as guards
returning `none` (the model of a failed check / abort); note that `free_size`
itself is only rounded up by `bits::Align`, never checked. -/
def Pool.freeChunk (p : Pool) (address freeSize : Nat) : Option Pool :=
  if address % kSuperPageSize ≠ 0 then none
  else if ¬ (p.addressBegin ≤ address) then none
  else if ¬ (address + alignUp freeSize kSuperPageSize ≤ p.addressEnd) then none
  else if ¬ (Finset.Ico ((address - p.addressBegin) / kSuperPageSize)
      ((address - p.addressBegin) / kSuperPageSize +
        alignUp freeSize kSuperPageSize / kSuperPageSize) ⊆ p.allocBitset) then none
  else some
    { p with
      allocBitset := p.allocBitset \ Finset.Ico ((address - p.addressBegin) / kSuperPageSize)
        ((address - p.addressBegin) / kSuperPageSize +
          alignUp freeSize kSuperPageSize / kSuperPageSize),
      bitHint := min p.bitHint ((address - p.addressBegin) / kSuperPageSize) }

/-! ## Simple facts about the pool allocator -/

theorem kSuperPageSize_pos : 0 < kSuperPageSize := by decide

theorem alignUp_zero : alignUp 0 kSuperPageSize = 0 := by decide

theorem alignUp_mul (k : Nat) : alignUp (k * kSuperPageSize) kSuperPageSize = k * kSuperPageSize := by
  unfold alignUp
  rw [Nat.add_sub_assoc (by decide), Nat.mul_comm k kSuperPageSize,
    Nat.mul_add_div kSuperPageSize_pos, Nat.div_eq_of_lt (by decide), Nat.add_zero,
    Nat.mul_comm]

theorem alignUp_idem (s : Nat) :
    alignUp (alignUp s kSuperPageSize) kSuperPageSize = alignUp s kSuperPageSize :=
  alignUp_mul _

/-- `C10` — With a zero-byte request, `FindChunk` needs `0` bits; the very
first outer iteration succeeds with an empty inner scan, inserting no bits
and leaving the hint alone, so the call returns `base + hint·SP` and the pool
unchanged.  (When `hint = total_bits` that address is one past the end of the
pool.)  The hypothesis is the pool invariant `hint ≤ size_bits` from the data
model. -/
theorem findChunk_zero (p : Pool) (h : p.bitHint ≤ p.totalBits) :
    p.findChunk 0 = (p, some (p.addressBegin + p.bitHint * kSuperPageSize)) := by
  unfold Pool.findChunk
  rw [show needBits 0 = 0 by decide]
  unfold findChunkLoopAux
  rw [if_neg (by omega)]
  rw [Nat.add_zero, Nat.sub_self]
  unfold innerScanAux
  simp

/-- `C8` (amended) — `FreeChunk` checks: a super-page-misaligned *address*
fails a (debug) check; the *size* is only rounded up to the next super-page
multiple, never checked; with an aligned address and all range checks passing,
the bits `[beg, beg + ⌈size/SP⌉)` are cleared and the hint becomes
`min(hint, beg)`. -/
theorem freeChunk_spec (p : Pool) (a s : Nat) :
    (a % kSuperPageSize ≠ 0 → p.freeChunk a s = none) ∧
    (p.freeChunk a s = p.freeChunk a (alignUp s kSuperPageSize)) ∧
    (a % kSuperPageSize = 0 → p.addressBegin ≤ a →
      a + alignUp s kSuperPageSize ≤ p.addressEnd →
      Finset.Ico ((a - p.addressBegin) / kSuperPageSize)
          ((a - p.addressBegin) / kSuperPageSize + alignUp s kSuperPageSize / kSuperPageSize)
          ⊆ p.allocBitset →
      p.freeChunk a s = some
        { p with
          allocBitset := p.allocBitset \
            Finset.Ico ((a - p.addressBegin) / kSuperPageSize)
              ((a - p.addressBegin) / kSuperPageSize +
                alignUp s kSuperPageSize / kSuperPageSize),
          bitHint := min p.bitHint ((a - p.addressBegin) / kSuperPageSize) }) := by
  refine ⟨fun hmis => ?_, ?_, fun ha h1 h2 h3 => ?_⟩
  · simp [Pool.freeChunk, hmis]
  · simp only [Pool.freeChunk, alignUp_idem]
  · simp [Pool.freeChunk, ha, h1, h2, h3]

/-! ### Characterization of `FindChunk`'s scan -/

theorem needBits_eq_ceil (s : Nat) : needBits s = (s + kSuperPageSize - 1) / kSuperPageSize := by
  unfold needBits alignUp
  rw [Nat.mul_div_cancel _ kSuperPageSize_pos]

theorem needBits_mul (s : Nat) : needBits s * kSuperPageSize = alignUp s kSuperPageSize := by
  unfold needBits
  exact Nat.div_mul_cancel ⟨_, Nat.mul_comm _ _⟩

/-- A scan that ends with `found = true` started with `found = true`. -/
theorem innerScanAux_found (bs : Finset Nat) (k : Nat) :
    ∀ beg cur hint fd beg' hint',
      innerScanAux bs k beg cur hint fd = (beg', hint', true) → fd = true := by
  induction k with
  | zero =>
    intro beg cur hint fd beg' hint' h
    simp only [innerScanAux, Prod.mk.injEq] at h
    exact h.2.2
  | succ k ih =>
    intro beg cur hint fd beg' hint' h
    unfold innerScanAux at h
    split at h
    · exact absurd (ih _ _ _ _ _ _ h) (by simp)
    · exact ih _ _ _ _ _ _ h

/-- A scan that ends with `found = false` either started that way and kept
`beg` intact, or pushed `beg` past a set bit in the scanned window. -/
theorem innerScanAux_false (bs : Finset Nat) (k : Nat) :
    ∀ beg cur hint fd beg' hint',
      innerScanAux bs k beg cur hint fd = (beg', hint', false) →
      (fd = false ∧ beg' = beg) ∨ (cur + 1 ≤ beg' ∧ beg' ≤ cur + k) := by
  induction k with
  | zero =>
    intro beg cur hint fd beg' hint' h
    simp only [innerScanAux, Prod.mk.injEq] at h
    exact Or.inl ⟨h.2.2, h.1.symm⟩
  | succ k ih =>
    intro beg cur hint fd beg' hint' h
    unfold innerScanAux at h
    split at h
    · rcases ih _ _ _ _ _ _ h with ⟨_, rfl⟩ | ⟨h1, h2⟩
      · exact Or.inr ⟨Nat.le_refl _, by omega⟩
      · exact Or.inr ⟨by omega, by omega⟩
    · rcases ih _ _ _ _ _ _ h with ⟨h1, h2⟩ | ⟨h1, h2⟩
      · exact Or.inl ⟨h1, h2⟩
      · exact Or.inr ⟨by omega, by omega⟩

/-- A scan that ends with `found = true` changed nothing and saw only clear
bits in its window. -/
theorem innerScanAux_true (bs : Finset Nat) (k : Nat) :
    ∀ beg cur hint fd beg' hint',
      innerScanAux bs k beg cur hint fd = (beg', hint', true) →
      beg' = beg ∧ hint' = hint ∧ ∀ i, cur ≤ i → i < cur + k → i ∉ bs := by
  induction k with
  | zero =>
    intro beg cur hint fd beg' hint' h
    simp only [innerScanAux, Prod.mk.injEq] at h
    exact ⟨h.1.symm, h.2.1.symm, fun i h1 h2 => by omega⟩
  | succ k ih =>
    intro beg cur hint fd beg' hint' h
    unfold innerScanAux at h
    split at h
    · exact absurd (innerScanAux_found bs k _ _ _ _ _ _ h) (by simp)
    · rename_i hcur
      obtain ⟨h1, h2, h3⟩ := ih _ _ _ _ _ _ h
      refine ⟨h1, h2, fun i hi1 hi2 => ?_⟩
      rcases Nat.eq_or_lt_of_le hi1 with rfl | hlt
      · exact hcur
      · exact h3 i hlt (by omega)

/-- Bits between the final `beg` and the end of the scanned window are clear
(given the same was true of the window `[beg, cur)` on entry). -/
theorem innerScanAux_clear (bs : Finset Nat) (k : Nat) :
    ∀ beg cur hint fd beg' hint' fd',
      (∀ i, beg ≤ i → i < cur → i ∉ bs) →
      innerScanAux bs k beg cur hint fd = (beg', hint', fd') →
      ∀ i, beg' ≤ i → i < cur + k → i ∉ bs := by
  induction k with
  | zero =>
    intro beg cur hint fd beg' hint' fd' hpre h
    simp only [innerScanAux, Prod.mk.injEq] at h
    obtain ⟨rfl, -, -⟩ := h
    exact fun i h1 h2 => hpre i h1 (by omega)
  | succ k ih =>
    intro beg cur hint fd beg' hint' fd' hpre h
    unfold innerScanAux at h
    split at h
    · have := ih _ _ _ _ _ _ _ (fun i h1 h2 => by omega) h
      exact fun i h1 h2 => this i h1 (by omega)
    · rename_i hcur
      have hpre' : ∀ i, beg ≤ i → i < cur + 1 → i ∉ bs := by
        intro i h1 h2
        rcases Nat.lt_or_ge i cur with hlt | hge
        · exact hpre i h1 hlt
        · have : i = cur := by omega
          exact this ▸ hcur
      have := ih _ _ _ _ _ _ _ hpre' h
      exact fun i h1 h2 => this i h1 (by omega)

/-- Full characterization of the outer `FindChunk` loop: on failure the
bitset is untouched; on success the returned run was entirely clear, fits in
the pool, and is exactly what got inserted. -/
theorem findChunkLoopAux_spec (bs : Finset Nat) (t n : Nat) :
    ∀ fuel beg cur hint, beg ≤ cur → cur ≤ beg + n →
      (∀ i, beg ≤ i → i < cur → i ∉ bs) →
      (∀ bs' hint', findChunkLoopAux bs t n fuel beg cur hint = (bs', hint', none) → bs' = bs) ∧
      (∀ bs' hint' b, findChunkLoopAux bs t n fuel beg cur hint = (bs', hint', some b) →
        bs' = bs ∪ Finset.Ico b (b + n) ∧ (∀ i, b ≤ i → i < b + n → i ∉ bs) ∧ b + n ≤ t) := by
  intro fuel
  induction fuel with
  | zero =>
    intro beg cur hint _ _ _
    constructor
    · intro bs' hint' h
      simp only [findChunkLoopAux, Prod.mk.injEq] at h
      exact h.1.symm
    · intro bs' hint' b h
      simp only [findChunkLoopAux, Prod.mk.injEq] at h
      exact absurd h.2.2 (by simp)
  | succ fuel ih =>
    intro beg cur hint hbc hcn hclear
    unfold findChunkLoopAux
    split
    · constructor
      · intro bs' hint' h
        simp only [Prod.mk.injEq] at h
        exact h.1.symm
      · intro bs' hint' b h
        simp only [Prod.mk.injEq] at h
        exact absurd h.2.2 (by simp)
    · rename_i hguard
      rcases hscan : innerScanAux bs (beg + n - cur) beg cur hint true with ⟨beg', hint', fd⟩
      cases fd
      · -- some bit was set: the loop retries past it
        obtain h1 := innerScanAux_false bs _ _ _ _ _ _ _ hscan
        rcases h1 with ⟨hff, _⟩ | ⟨hge, hle⟩
        · exact absurd hff (by simp)
        · have hwin : cur + (beg + n - cur) = beg + n := by omega
          have hclear' : ∀ i, beg' ≤ i → i < beg + n → i ∉ bs := by
            have := innerScanAux_clear bs _ _ _ _ _ _ _ _ hclear hscan
            intro i hi1 hi2
            exact this i hi1 (by omega)
          have hinv1 : beg' ≤ beg + n := by omega
          have hinv2 : beg + n ≤ beg' + n := by omega
          have := ih beg' (beg + n) hint' hinv1 hinv2 hclear'
          simpa [hscan] using this
      · -- the window was clear: allocate it
        obtain ⟨hbeg, hhint, hcl⟩ := innerScanAux_true bs _ _ _ _ _ _ _ hscan
        have hwin : cur + (beg + n - cur) = beg + n := by omega
        have hclearAll : ∀ i, beg ≤ i → i < beg + n → i ∉ bs := by
          intro i hi1 hi2
          rcases Nat.lt_or_ge i cur with hlt | hge
          · exact hclear i hi1 hlt
          · exact hcl i hge (by omega)
        simp only [hscan]
        constructor
        · intro bs' hint'' h
          simp only [Prod.mk.injEq] at h
          exact absurd h.2.2 (by simp)
        · intro bs' hint'' b h
          simp only [Prod.mk.injEq] at h
          obtain ⟨hb1, _, hb3⟩ := h
          rcases hb3
          exact ⟨hb1.symm, hclearAll, by omega⟩

/-- `FindChunk` characterization at the `Pool` level.  In both cases the
geometry fields (`address_begin_`, `address_end_`, `total_bits_`) are
untouched; on failure so is the bitset; on success exactly the returned
(previously clear) run of `needBits` bits is set. -/
theorem findChunk_spec (p : Pool) (sz : Nat) :
    (∀ p', p.findChunk sz = (p', none) →
      p'.allocBitset = p.allocBitset ∧ p'.addressBegin = p.addressBegin ∧
      p'.addressEnd = p.addressEnd ∧ p'.totalBits = p.totalBits) ∧
    (∀ p' a, p.findChunk sz = (p', some a) → ∃ beg,
      a = p.addressBegin + beg * kSuperPageSize ∧
      p'.allocBitset = p.allocBitset ∪ Finset.Ico beg (beg + needBits sz) ∧
      (∀ i, beg ≤ i → i < beg + needBits sz → i ∉ p.allocBitset) ∧
      beg + needBits sz ≤ p.totalBits ∧
      p'.addressBegin = p.addressBegin ∧ p'.addressEnd = p.addressEnd ∧
      p'.totalBits = p.totalBits) := by
  have hspec := findChunkLoopAux_spec p.allocBitset p.totalBits (needBits sz)
    (p.totalBits + 1) p.bitHint p.bitHint p.bitHint (Nat.le_refl _) (Nat.le_add_right _ _)
    (fun i h1 h2 => by omega)
  rcases hloop : findChunkLoopAux p.allocBitset p.totalBits (needBits sz) (p.totalBits + 1)
      p.bitHint p.bitHint p.bitHint with ⟨bs', hint', r2⟩
  constructor
  · intro p' hp
    simp only [Pool.findChunk, hloop] at hp
    cases r2 with
    | none =>
      simp only [Option.map_none', Prod.mk.injEq, and_true] at hp
      have hbs := hspec.1 bs' hint' hloop
      rcases hp with ⟨rfl, -⟩
      exact ⟨hbs, rfl, rfl, rfl⟩
    | some b => simp at hp
  · intro p' a hp
    simp only [Pool.findChunk, hloop] at hp
    cases r2 with
    | none => simp at hp
    | some b =>
      simp only [Option.map_some', Prod.mk.injEq, Option.some.injEq] at hp
      obtain ⟨h1, h2, h3⟩ := hspec.2 bs' hint' b hloop
      rcases hp with ⟨rfl, rfl⟩
      exact ⟨b, rfl, h1, h2, h3, rfl, rfl, rfl⟩

/-! ### Allocation traces (`C7`)

An allocation trace interleaves `FindChunk` and `FreeChunk` calls.  A `free`
is admitted only when it releases exactly a `(address, size)` run previously
returned by a `find` and still live, which is the side condition of the
claim. -/

inductive PoolOp where
  | find (size : Nat)
  | free (addr size : Nat)
  deriving DecidableEq

/-- Remove the first occurrence of `x` from the list (used to retire a live
allocation when it is freed). -/
def removeFirst : List (Nat × Nat) → Nat × Nat → List (Nat × Nat)
  | [], _ => []
  | e :: l, x => if e = x then l else e :: removeFirst l x

theorem mem_of_mem_removeFirst {l : List (Nat × Nat)} {x e : Nat × Nat}
    (h : e ∈ removeFirst l x) : e ∈ l := by
  induction l with
  | nil => simp [removeFirst] at h
  | cons f l ih =>
    rw [removeFirst] at h
    split at h
    · exact List.mem_cons_of_mem _ h
    · rcases List.mem_cons.mp h with rfl | h'
      · exact List.mem_cons_self _ _
      · exact List.mem_cons_of_mem _ (ih h')


theorem perm_cons_removeFirst {l : List (Nat × Nat)} {x : Nat × Nat} (h : x ∈ l) :
    l.Perm (x :: removeFirst l x) := by
  induction l with
  | nil => simp at h
  | cons f l ih =>
    rw [removeFirst]
    split
    · rename_i hfx
      subst hfx
      exact List.Perm.refl _
    · rename_i hfx
      rcases List.mem_cons.mp h with rfl | h'
      · exact absurd rfl hfx
      · exact ((ih h').cons f).trans (List.Perm.swap _ _ _)

/-- One pool operation on `(pool, live allocations)`.  A `find` always
commits the pool returned by `FindChunk` and records the `(address, size)`
pair when one is returned; a `free` is admitted only for a live pair (the
claim's side condition) and aborts when a `FreeChunk` check fails. -/
def runStep (p : Pool) (live : List (Nat × Nat)) :
    PoolOp → Option (Pool × List (Nat × Nat))
  | PoolOp.find sz =>
    some ((p.findChunk sz).1, ((p.findChunk sz).2.map fun addr => (addr, sz)).elim live (· :: live))
  | PoolOp.free a sz =>
    if (a, sz) ∈ live then (p.freeChunk a sz).map fun p' => (p', removeFirst live (a, sz))
    else none

/-- Run a list of pool operations, tracking the still-live allocations as
`(address, requested_size)` pairs. -/
def runOps (p : Pool) (live : List (Nat × Nat)) :
    List PoolOp → Option (Pool × List (Nat × Nat))
  | [] => some (p, live)
  | op :: ops => (runStep p live op).elim none fun s => runOps s.1 s.2 ops

/-- The occupancy bits covered by a live allocation `(address, size)` in a
pool based at `base`. -/
def bitRange (base : Nat) (e : Nat × Nat) : Finset Nat :=
  Finset.Ico ((e.1 - base) / kSuperPageSize) ((e.1 - base) / kSuperPageSize + needBits e.2)

/-- The representation invariant tying a pool's bitmap to the live
allocations: the live runs are aligned, in range, pairwise disjoint, and
their bit ranges cover exactly the set bits. -/
structure PoolInv (p : Pool) (live : List (Nat × Nat)) : Prop where
  beginAligned : p.addressBegin % kSuperPageSize = 0
  endEq : p.addressEnd = p.addressBegin + p.totalBits * kSuperPageSize
  liveOk : ∀ e ∈ live, p.addressBegin ≤ e.1 ∧ e.1 % kSuperPageSize = 0 ∧
    (e.1 - p.addressBegin) / kSuperPageSize + needBits e.2 ≤ p.totalBits
  cover : ∀ i, i ∈ p.allocBitset ↔ ∃ e ∈ live, i ∈ bitRange p.addressBegin e
  disj : live.Pairwise fun a b => Disjoint (bitRange p.addressBegin a) (bitRange p.addressBegin b)

theorem card_bitRange (base : Nat) (e : Nat × Nat) :
    (bitRange base e).card = needBits e.2 := by
  simp [bitRange]

theorem mem_foldr_union (base : Nat) (l : List (Nat × Nat)) (i : Nat) :
    i ∈ l.foldr (fun e acc => bitRange base e ∪ acc) ∅ ↔ ∃ e ∈ l, i ∈ bitRange base e := by
  induction l with
  | nil => simp
  | cons e l ih => simp [ih]

theorem card_foldr_union (base : Nat) (l : List (Nat × Nat))
    (hd : l.Pairwise fun a b => Disjoint (bitRange base a) (bitRange base b)) :
    (l.foldr (fun e acc => bitRange base e ∪ acc) ∅).card =
      (l.map fun e => needBits e.2).sum := by
  induction l with
  | nil => simp
  | cons e l ih =>
    rw [List.pairwise_cons] at hd
    simp only [List.foldr, List.map_cons, List.sum_cons]
    rw [Finset.card_union_of_disjoint, card_bitRange, ih hd.2]
    rw [Finset.disjoint_left]
    intro i hi hmem
    obtain ⟨e', he', hie'⟩ := (mem_foldr_union base l i).mp hmem
    exact (Finset.disjoint_left.mp (hd.1 e' he') hi) hie'

/-- Under the invariant, the number of set bits is the sum of the live runs'
bit counts. -/
theorem PoolInv.card_eq {p : Pool} {live : List (Nat × Nat)} (h : PoolInv p live) :
    p.allocBitset.card = (live.map fun e => needBits e.2).sum := by
  have hsub : p.allocBitset = live.foldr (fun e acc => bitRange p.addressBegin e ∪ acc) ∅ := by
    ext i
    rw [h.cover i]
    exact (mem_foldr_union p.addressBegin live i).symm
  rw [hsub, card_foldr_union p.addressBegin live h.disj]

theorem bitRange_of_find {p : Pool} (beg sz : Nat) :
    bitRange p.addressBegin (p.addressBegin + beg * kSuperPageSize, sz) =
      Finset.Ico beg (beg + needBits sz) := by
  have key : (p.addressBegin + beg * kSuperPageSize - p.addressBegin) / kSuperPageSize = beg := by
    rw [Nat.add_sub_cancel_left, Nat.mul_div_cancel _ kSuperPageSize_pos]
  have key2 : beg * kSuperPageSize / kSuperPageSize = beg :=
    Nat.mul_div_cancel _ kSuperPageSize_pos
  simp [bitRange, key, key2]

/-- A successful `FindChunk` preserves the invariant, with the fresh run
prepended to the live list. -/
theorem PoolInv.findChunk_some {p : Pool} {live : List (Nat × Nat)} (h : PoolInv p live)
    {sz : Nat} {p' : Pool} {a : Nat} (hf : p.findChunk sz = (p', some a)) :
    PoolInv p' ((a, sz) :: live) := by
  obtain ⟨beg, ha, hbs, hclear, hle, hB, hE, hT⟩ := (findChunk_spec p sz).2 p' a hf
  subst ha
  have hrange := bitRange_of_find (p := p) beg sz
  refine ⟨?_, ?_, ?_, ?_, ?_⟩
  · rw [hB]; exact h.beginAligned
  · rw [hB, hE, hT]; exact h.endEq
  · intro e he
    rw [hB, hT]
    rcases List.mem_cons.mp he with rfl | hmem
    · refine ⟨Nat.le_add_right _ _, ?_, ?_⟩
      · simp [Nat.add_mul_mod_self_right, Nat.mul_mod_left, h.beginAligned]
      · rw [Nat.add_sub_cancel_left, Nat.mul_div_cancel _ kSuperPageSize_pos]
        exact hle
    · exact h.liveOk e hmem
  · intro i
    rw [hB, hbs, Finset.mem_union]
    constructor
    · rintro (hi | hi)
      · obtain ⟨e, he, hie⟩ := (h.cover i).mp hi
        exact ⟨e, List.mem_cons_of_mem _ he, hie⟩
      · exact ⟨_, List.mem_cons_self _ _, hrange ▸ hi⟩
    · rintro ⟨e, he, hie⟩
      rcases List.mem_cons.mp he with rfl | hmem
      · exact Or.inr (hrange ▸ hie)
      · exact Or.inl ((h.cover i).mpr ⟨e, hmem, hie⟩)
  · rw [hB]
    refine List.pairwise_cons.mpr ⟨?_, h.disj⟩
    intro e' he'
    rw [Finset.disjoint_left]
    intro i hi hie'
    rw [hrange] at hi
    obtain ⟨hi1, hi2⟩ := Finset.mem_Ico.mp hi
    exact hclear i hi1 hi2 ((h.cover i).mpr ⟨e', he', hie'⟩)

/-- A failed `FindChunk` preserves the invariant (only the hint moved). -/
theorem PoolInv.findChunk_none {p : Pool} {live : List (Nat × Nat)} (h : PoolInv p live)
    {sz : Nat} {p' : Pool} (hf : p.findChunk sz = (p', none)) : PoolInv p' live := by
  obtain ⟨hbs, hB, hE, hT⟩ := (findChunk_spec p sz).1 p' hf
  refine ⟨?_, ?_, ?_, ?_, ?_⟩
  · rw [hB]; exact h.beginAligned
  · rw [hB, hE, hT]; exact h.endEq
  · intro e he; rw [hB, hT]; exact h.liveOk e he
  · intro i; rw [hB, hbs]; exact h.cover i
  · rw [hB]; exact h.disj

/-- Under the invariant, a `FreeChunk` of a live run passes all its checks
and preserves the invariant for the remaining runs. -/
theorem PoolInv.freeChunk_some {p : Pool} {live : List (Nat × Nat)} (h : PoolInv p live)
    {a sz : Nat} (hmem : (a, sz) ∈ live) :
    ∃ p', p.freeChunk a sz = some p' ∧ PoolInv p' (removeFirst live (a, sz)) := by
  obtain ⟨hb, hal, hrange⟩ := h.liveOk (a, sz) hmem
  have hdvd : kSuperPageSize ∣ (a - p.addressBegin) :=
    Nat.dvd_sub' (Nat.dvd_of_mod_eq_zero hal) (Nat.dvd_of_mod_eq_zero h.beginAligned)
  have hexact : (a - p.addressBegin) / kSuperPageSize * kSuperPageSize = a - p.addressBegin :=
    Nat.div_mul_cancel hdvd
  have hsubset : Finset.Ico ((a - p.addressBegin) / kSuperPageSize)
      ((a - p.addressBegin) / kSuperPageSize + alignUp sz kSuperPageSize / kSuperPageSize)
      ⊆ p.allocBitset := by
    intro i hi
    exact (h.cover i).mpr ⟨(a, sz), hmem, by simpa [bitRange, needBits] using hi⟩
  have hend : a + alignUp sz kSuperPageSize ≤ p.addressEnd := by
    rw [h.endEq, ← needBits_mul]
    have h1 : ((a - p.addressBegin) / kSuperPageSize + needBits sz) * kSuperPageSize ≤
        p.totalBits * kSuperPageSize := Nat.mul_le_mul_right _ hrange
    rw [Nat.add_mul, hexact] at h1
    omega
  have hfree : p.freeChunk a sz = some
      { p with
        allocBitset := p.allocBitset \ Finset.Ico ((a - p.addressBegin) / kSuperPageSize)
          ((a - p.addressBegin) / kSuperPageSize + alignUp sz kSuperPageSize / kSuperPageSize),
        bitHint := min p.bitHint ((a - p.addressBegin) / kSuperPageSize) } := by
    rw [Pool.freeChunk, if_neg (fun hne => hne hal), if_neg (not_not_intro hb),
      if_neg (not_not_intro hend), if_neg (not_not_intro hsubset)]
  refine ⟨_, hfree, ?_⟩
  have hperm : live.Perm ((a, sz) :: removeFirst live (a, sz)) := perm_cons_removeFirst hmem
  have hpw : ((a, sz) :: removeFirst live (a, sz)).Pairwise
      (fun x y => Disjoint (bitRange p.addressBegin x) (bitRange p.addressBegin y)) :=
    (hperm.pairwise_iff fun hxy => Disjoint.symm hxy).mp h.disj
  obtain ⟨hhead, htail⟩ := List.pairwise_cons.mp hpw
  have hIco : Finset.Ico ((a - p.addressBegin) / kSuperPageSize)
      ((a - p.addressBegin) / kSuperPageSize + alignUp sz kSuperPageSize / kSuperPageSize) =
      bitRange p.addressBegin (a, sz) := by
    simp [bitRange, needBits]
  refine ⟨h.beginAligned, h.endEq, ?_, ?_, ?_⟩
  · intro e he
    exact h.liveOk e (mem_of_mem_removeFirst he)
  · intro i
    simp only [Finset.mem_sdiff, hIco]
    constructor
    · rintro ⟨hi, hni⟩
      obtain ⟨e, he, hie⟩ := (h.cover i).mp hi
      rcases List.mem_cons.mp (hperm.mem_iff.mp he) with rfl | hmem'
      · exact absurd hie hni
      · exact ⟨e, hmem', hie⟩
    · rintro ⟨e, he, hie⟩
      refine ⟨(h.cover i).mpr ⟨e, mem_of_mem_removeFirst he, hie⟩, ?_⟩
      exact fun hia => Finset.disjoint_left.mp (hhead e he) hia hie
  · exact htail

/-- Running any trace from an invariant-respecting state keeps the
invariant. -/
theorem runOps_inv (ops : List PoolOp) :
    ∀ p live p' live', PoolInv p live → runOps p live ops = some (p', live') →
      PoolInv p' live' := by
  induction ops with
  | nil =>
    intro p live p' live' h hr
    simp only [runOps, Option.some.injEq, Prod.mk.injEq] at hr
    obtain ⟨rfl, rfl⟩ := hr
    exact h
  | cons op ops ih =>
    intro p live p' live' h hr
    rw [runOps] at hr
    cases op with
    | find sz =>
      rcases hfc : p.findChunk sz with ⟨q, _ | a⟩
      · rw [runStep, hfc] at hr
        exact ih q live p' live' (h.findChunk_none hfc) (by simpa using hr)
      · rw [runStep, hfc] at hr
        exact ih q ((a, sz) :: live) p' live' (h.findChunk_some hfc) (by simpa using hr)
    | free a sz =>
      rw [runStep] at hr
      split at hr
      · rename_i hmem
        obtain ⟨q, hq, hinv⟩ := h.freeChunk_some hmem
        rw [hq] at hr
        exact ih q (removeFirst live (a, sz)) p' live' hinv (by simpa using hr)
      · exact absurd hr (by simp)

/-- `C7` — For any pool state satisfying the representation invariant and any
sequence of `FindChunk`/`FreeChunk` calls in which every free releases exactly
a previously returned, still-live `(address, size)` run, the number of set
bits in the occupancy bitmap equals the sum of `⌈size/SP⌉` over the still-live
allocations. -/
theorem runOps_card (p : Pool) (live : List (Nat × Nat)) (ops : List PoolOp)
    (h : PoolInv p live) (p' : Pool) (live' : List (Nat × Nat))
    (hr : runOps p live ops = some (p', live')) :
    p'.allocBitset.card =
      (live'.map fun e => (e.2 + kSuperPageSize - 1) / kSuperPageSize).sum := by
  have hc := (runOps_inv ops p live p' live' h hr).card_eq
  simpa [needBits_eq_ceil] using hc

/-- A fresh 4-super-page pool at `2^40` used by the trace witness. -/
def emptyPool : Pool :=
  { totalBits := 4, addressBegin := 2 ^ 40, addressEnd := 2 ^ 40 + 4 * kSuperPageSize,
    allocBitset := ∅, bitHint := 0 }

/-- The witness trace: two allocations, one matched free, one failing find. -/
def witnessOps : List PoolOp :=
  [PoolOp.find 1, PoolOp.find (2 * kSuperPageSize), PoolOp.free (2 ^ 40) 1,
   PoolOp.find (3 * kSuperPageSize)]

def witnessFinalPool : Pool :=
  { totalBits := 4, addressBegin := 2 ^ 40, addressEnd := 2 ^ 40 + 4 * kSuperPageSize,
    allocBitset := {1, 2}, bitHint := 0 }

def witnessFinalLive : List (Nat × Nat) := [(2 ^ 40 + kSuperPageSize, 2 * kSuperPageSize)]

/-- Witness for `runOps_card` on a concrete trace: after two finds, a free
and a failed find, two bits remain set, matching `⌈2·SP/SP⌉ = 2`. -/
theorem runOps_card_witness :
    runOps emptyPool [] witnessOps = some (witnessFinalPool, witnessFinalLive) ∧
      witnessFinalPool.allocBitset.card =
        (witnessFinalLive.map fun e => (e.2 + kSuperPageSize - 1) / kSuperPageSize).sum :=
  ⟨by decide, runOps_card emptyPool [] witnessOps
      ⟨by decide, by decide, by simp, fun i => by simp [emptyPool], List.Pairwise.nil⟩
      witnessFinalPool witnessFinalLive (by decide)⟩

/-- A small concrete pool used by witnesses: 4 super-pages at `2^40`, bit `0`
allocated. -/
def witnessPool : Pool :=
  { totalBits := 4, addressBegin := 2 ^ 40, addressEnd := 2 ^ 40 + 4 * kSuperPageSize,
    allocBitset := {0}, bitHint := 0 }

/-- Witness for `findChunk_zero` at a concrete pool. -/
theorem findChunk_zero_witness :
    witnessPool.bitHint ≤ witnessPool.totalBits ∧
      witnessPool.findChunk 0 =
        (witnessPool, some (witnessPool.addressBegin + witnessPool.bitHint * kSuperPageSize)) :=
  ⟨by decide, findChunk_zero witnessPool (by decide)⟩

/-- `C8` counterexample — a `FreeChunk` call whose *size* (1 byte) is not
super-page-aligned proceeds (returns an updated pool) instead of failing a
check, contradicting the claim that misaligned sizes abort. -/
theorem freeChunk_misaligned_size_proceeds :
    1 % kSuperPageSize ≠ 0 ∧
      witnessPool.freeChunk (2 ^ 40) 1 =
        some { witnessPool with allocBitset := ∅, bitHint := 0 } := by
  constructor
  · decide
  · decide

/-- Witness for `freeChunk_spec` at a concrete pool and misaligned address. -/
theorem freeChunk_spec_witness :
    (2 ^ 40 + 5) % kSuperPageSize ≠ 0 ∧ witnessPool.freeChunk (2 ^ 40 + 5) 1 = none :=
  ⟨by decide, (freeChunk_spec witnessPool (2 ^ 40 + 5) 1).1 (by decide)⟩

/-! ## GigaCage pool membership (`PartitionAddressSpace`)

The pool sizes and masks follow `partition_address_space.h`.  `kPoolMaxSize`
itself lives in `partition_alloc_constants.h`, which is not in the sources. -/

def kGiB : Nat := 2 ^ 30

/-- Modelled from the spec: `kPoolMaxSize`, the per-pool reservation, a power
of two ("typical: 16 GiB"); `partition_alloc_constants.h` is not in the
sources. -/
def kPoolMaxSize : Nat := 16 * kGiB

def kNonBRPPoolSize : Nat := kPoolMaxSize

def kBRPPoolSize : Nat := kPoolMaxSize

def kConfigurablePoolSize : Nat := 4 * kGiB

def kNonBRPPoolOffsetMask : Nat := kNonBRPPoolSize - 1

def kNonBRPPoolBaseMask : Nat := compl64 kNonBRPPoolOffsetMask

def kBRPPoolOffsetMask : Nat := kBRPPoolSize - 1

def kBRPPoolBaseMask : Nat := compl64 kBRPPoolOffsetMask

def kConfigurablePoolOffsetMask : Nat := kConfigurablePoolSize - 1

def kConfigurablePoolBaseMask : Nat := compl64 kConfigurablePoolOffsetMask

/-- `PartitionAddressSpace::GigaCageSetup`: the pool base addresses and
handles. -/
structure GigaCageSetup where
  nonBrpPoolBaseAddress : Nat
  brpPoolBaseAddress : Nat
  configurablePoolBaseAddress : Nat
  nonBrpPool : Nat
  brpPool : Nat
  configurablePool : Nat
  deriving DecidableEq

/-- The member initializers of `GigaCageSetup`: before
`PartitionAddressSpace::Init()` each `*_pool_base_address_` holds its pool's
offset mask as a sentinel and every handle is `0`. -/
def initialGigaCageSetup : GigaCageSetup :=
  { nonBrpPoolBaseAddress := kNonBRPPoolOffsetMask
    brpPoolBaseAddress := kBRPPoolOffsetMask
    configurablePoolBaseAddress := kConfigurablePoolOffsetMask
    nonBrpPool := 0
    brpPool := 0
    configurablePool := 0 }

/-- `PartitionAddressSpace::IsInNonBRPPool`. -/
def IsInNonBRPPool (s : GigaCageSetup) (addr : Nat) : Bool :=
  addr &&& kNonBRPPoolBaseMask == s.nonBrpPoolBaseAddress

/-- `PartitionAddressSpace::IsInBRPPool`. -/
def IsInBRPPool (s : GigaCageSetup) (addr : Nat) : Bool :=
  addr &&& kBRPPoolBaseMask == s.brpPoolBaseAddress

/-- `PartitionAddressSpace::IsInConfigurablePool`. -/
def IsInConfigurablePool (s : GigaCageSetup) (addr : Nat) : Bool :=
  addr &&& kConfigurablePoolBaseMask == s.configurablePoolBaseAddress

inductive PoolClass where
  | noPool
  | nonBrp
  | brp
  | configurable
  deriving DecidableEq

/-- The classifier (`cage::classify`), testing the pools in the order of
`GetPoolAndOffset` / `IsManagedByPartitionAlloc` and returning `noPool` when
no membership test matches. -/
def classify (s : GigaCageSetup) (addr : Nat) : PoolClass :=
  if IsInNonBRPPool s addr then PoolClass.nonBrp
  else if IsInBRPPool s addr then PoolClass.brp
  else if IsInConfigurablePool s addr then PoolClass.configurable
  else PoolClass.noPool

/-- An AND with an even mask can never equal an odd sentinel (bit `0`
differs). -/
theorem land_ne_of_bit0 (addr mask sent : Nat) (hm : mask.testBit 0 = false)
    (hs : sent.testBit 0 = true) : addr &&& mask ≠ sent := by
  intro h
  have hbit := congrArg (fun x => Nat.testBit x 0) h
  simp only [Nat.testBit_land, hm, Bool.and_false, hs] at hbit
  exact Bool.false_ne_true hbit

/-- `C6` — Before `Init()` every pool's `base_address` sentinel is its offset
mask, an odd value, while `addr & base_mask` is always even (every base mask
clears bit `0` because pool sizes exceed `1`); so each membership test is
false for every address and the classifier returns "none" on any input. -/
theorem classify_uninitialized (addr : Nat) :
    IsInNonBRPPool initialGigaCageSetup addr = false ∧
    IsInBRPPool initialGigaCageSetup addr = false ∧
    IsInConfigurablePool initialGigaCageSetup addr = false ∧
    classify initialGigaCageSetup addr = PoolClass.noPool := by
  have h1 : IsInNonBRPPool initialGigaCageSetup addr = false := by
    simp only [IsInNonBRPPool, initialGigaCageSetup]
    exact beq_eq_false_iff_ne.mpr
      (land_ne_of_bit0 addr _ _ (by decide) (by decide))
  have h2 : IsInBRPPool initialGigaCageSetup addr = false := by
    simp only [IsInBRPPool, initialGigaCageSetup]
    exact beq_eq_false_iff_ne.mpr
      (land_ne_of_bit0 addr _ _ (by decide) (by decide))
  have h3 : IsInConfigurablePool initialGigaCageSetup addr = false := by
    simp only [IsInConfigurablePool, initialGigaCageSetup]
    exact beq_eq_false_iff_ne.mpr
      (land_ne_of_bit0 addr _ _ (by decide) (by decide))
  refine ⟨h1, h2, h3, ?_⟩
  simp [classify, h1, h2, h3]

/-! ## Pool-offset freelist entry (`pool_offset_freelist.h`)

`PartitionAddressSpace::GetPoolInfo`, `kPtrTagMask` (`tagging.h`) and
`PartitionPageSize()` are not in the sources; they are modelled from the
spec.  The entry itself (`next_`, `shadow_`, encoding, decoding and the
well-formedness checks) follows the source, with the shadow-entry
configuration (`PA_CONFIG(HAS_FREELIST_SHADOW_ENTRY)`) active. -/

/-- Modelled from the spec: the MTE tag bits "occupy the high byte of a
pointer" (`kPtrTagMask`, from `tagging.h`, which is not in the sources). -/
def kPtrTagMask : Nat := 0xFF00000000000000

/-- `SlotStartPtr2Addr`: strips the MTE tag bits from a tagged pointer. -/
def untagAddr (a : Nat) : Nat := a &&& compl64 kPtrTagMask

/-- Modelled from the spec: `PartitionPageSize()` bounds the super-page
metadata area ("`next` is not inside the super-page's metadata region");
`partition_alloc_constants.h` is not in the sources.  16 KiB. -/
def kPartitionPageSize : Nat := 2 ^ 14

/-- Modelled from the spec: `PartitionAddressSpace::PoolInfo` for an address,
carrying the containing pool's base, base mask and the address's offset.  The
base mask excludes the MTE tag bits, so membership
(`(p & base_mask) == base`) holds "including when MTE tag bits are set". -/
structure PoolInfo where
  base : Nat
  baseMask : Nat
  offset : Nat
  deriving DecidableEq

/-- `PoolOffsetFreelistEntry::EncodeToOffset`: `nullptr` encodes to `0`; any
other pointer keeps its in-pool offset bits plus its MTE tag bits. -/
def EncodeToOffset (pi : PoolInfo) (addr : Nat) : Nat :=
  if addr = 0 then 0
  else addr &&& (kPtrTagMask ||| compl64 pi.baseMask)

/-- `PoolOffsetFreelistEntry::DecodeFromOffset`: rebuilds the pointer as
`pool_base | tagged_offset`. -/
def DecodeFromOffset (taggedOffset : Nat) (pi : PoolInfo) : Nat :=
  pi.base ||| taggedOffset

/-- The freelist entry: `next_` and its shadow `shadow_` (inverted copy). -/
structure PoolOffsetFreelistEntry where
  next : Nat
  shadow : Nat
  deriving DecidableEq

/-- `PoolOffsetFreelistEntry::IsWellFormed`: shadow matches, the offset
carries no pool-base bits, `next` avoids the metadata area, and (except for
thread-cache chains) `here` and `next` share a super-page. -/
def IsWellFormed (forThreadCache : Bool) (pi : PoolInfo) (hereTagged : Nat)
    (e : PoolOffsetFreelistEntry) (nextTagged : Nat) : Bool :=
  let hereAddress := untagAddr hereTagged
  let nextAddress := untagAddr nextTagged
  let noBitInPoolBaseMask := e.next &&& pi.baseMask == 0
  let notInMetadata := kPartitionPageSize ≤ nextAddress &&& kSuperPageOffsetMask
  let shadowOk := compl64 e.next == e.shadow
  if forThreadCache then noBitInPoolBaseMask && shadowOk && notInMetadata
  else
    let sameSuperPage :=
      hereAddress &&& kSuperPageBaseMask == nextAddress &&& kSuperPageBaseMask
    noBitInPoolBaseMask && shadowOk && sameSuperPage && notInMetadata

/-- Outcome of `GetNextInternal`: a zero `next_` reads as end-of-list
(`nullNext`); a failed well-formedness check is `corruption` (the code then
either crashes or returns null, by the `crash_on_corruption` policy); a
passing check returns the decoded pointer. -/
inductive GetNextResult where
  | nullNext
  | corruption
  | next (addr : Nat)
  deriving DecidableEq

/-- `PoolOffsetFreelistEntry::GetNextInternal`, with the caller's pool info
passed explicitly (the code obtains it from `GetPoolInfo(this)`). -/
def GetNextInternal (forThreadCache : Bool) (pi : PoolInfo) (hereTagged : Nat)
    (e : PoolOffsetFreelistEntry) : GetNextResult :=
  if e.next = 0 then GetNextResult.nullNext
  else
    let ret := DecodeFromOffset e.next pi
    if IsWellFormed forThreadCache pi hereTagged e ret then GetNextResult.next ret
    else GetNextResult.corruption

theorem wordMask_testBit (i : Nat) : wordMask.testBit i = decide (i < 64) := by
  rw [wordMask]
  exact Nat.testBit_two_pow_sub_one 64 i

theorem compl64_testBit (x i : Nat) :
    (compl64 x).testBit i = (decide (i < 64) ^^ x.testBit i) := by
  rw [compl64, Nat.testBit_xor, wordMask_testBit]

/-- `C4` — Decoding the encoding of any non-null pointer in a known pool,
MTE tag bits included, returns the pointer.  The hypotheses say that
`pool_info` is the pool info of `p`: a 64-bit base mask disjoint from the tag
bits (`GetPoolInfo` is modelled from the spec) with `p` a member. -/
theorem decode_encode_roundtrip (pi : PoolInfo) (p : Nat) (hp : p ≠ 0)
    (hlt : p < 2 ^ 64) (hmask : pi.baseMask < 2 ^ 64)
    (hdisj : kPtrTagMask &&& pi.baseMask = 0)
    (hmem : p &&& pi.baseMask = pi.base) :
    DecodeFromOffset (EncodeToOffset pi p) pi = p := by
  rw [EncodeToOffset, if_neg hp, DecodeFromOffset]
  apply Nat.eq_of_testBit_eq
  intro i
  have hbase : pi.base.testBit i = (p.testBit i && pi.baseMask.testBit i) := by
    rw [← hmem, Nat.testBit_land]
  have hdisj' : (kPtrTagMask.testBit i && pi.baseMask.testBit i) = false := by
    rw [← Nat.testBit_land, hdisj, Nat.zero_testBit]
  simp only [Nat.testBit_lor, Nat.testBit_land, compl64_testBit, hbase]
  by_cases hi : i < 64
  · rw [decide_eq_true hi]
    cases hmb : pi.baseMask.testBit i
    · cases p.testBit i <;> simp
    · have hgb : kPtrTagMask.testBit i = false := by
        rw [hmb] at hdisj'
        simpa using hdisj'
      rw [hgb]
      cases p.testBit i <;> simp
  · have htb : p.testBit i = false :=
      Nat.testBit_eq_false_of_lt (lt_of_lt_of_le hlt (Nat.pow_le_pow_right (by omega) (by omega)))
    have hmb : pi.baseMask.testBit i = false :=
      Nat.testBit_eq_false_of_lt (lt_of_lt_of_le hmask (Nat.pow_le_pow_right (by omega) (by omega)))
    simp [htb, hmb]

theorem compl64_inj {a b : Nat} (h : compl64 a = compl64 b) : a = b := by
  have := congrArg (fun x => wordMask ^^^ x) h
  simpa [compl64, ← Nat.xor_assoc] using this

/-- `C5` (amended) — Flipping any single bit of `next_offset` while leaving
`shadow` unchanged, *provided the flipped word is still non-zero*, makes the
next `get_next` fail the shadow check and signal corruption (crash or null
per policy).  Flipping the sole set bit produces `0`, which reads as a clean
end-of-list null instead (see the counterexample). -/
theorem getNext_detects_bitflip (ftc : Bool) (pi : PoolInfo) (hereTagged : Nat)
    (next shadow : Nat) (i : Nat) (hshadow : shadow = compl64 next)
    (hflip : next ^^^ 2 ^ i ≠ 0) :
    GetNextInternal ftc pi hereTagged ⟨next ^^^ 2 ^ i, shadow⟩ =
      GetNextResult.corruption := by
  have hne : compl64 (next ^^^ 2 ^ i) ≠ shadow := by
    rw [hshadow]
    intro hc
    have hx := compl64_inj hc
    have h2 : (2 : Nat) ^ i = 0 := by
      have hcancel := congrArg (fun y => next ^^^ y) hx
      simp only [← Nat.xor_assoc, Nat.xor_self, Nat.zero_xor] at hcancel
      exact hcancel
    exact absurd h2 (Nat.pos_iff_ne_zero.mp (Nat.two_pow_pos i))
  have hwf : IsWellFormed ftc pi hereTagged ⟨next ^^^ 2 ^ i, shadow⟩
      (DecodeFromOffset (next ^^^ 2 ^ i) pi) = false := by
    simp [IsWellFormed, beq_eq_false_iff_ne.mpr hne]
  simp [GetNextInternal, hflip, hwf]

/-- The pool info used by the freelist witnesses: a pool at `2^40` whose base
mask covers bits 34–55 (the pool bits minus the MTE tag byte). -/
def freelistPoolInfo : PoolInfo :=
  { base := 2 ^ 40, baseMask := (2 ^ 64 - 2 ^ 34) &&& compl64 kPtrTagMask, offset := 0 }

/-- Witness for `decode_encode_roundtrip` at a concrete MTE-tagged pointer
(`2^57` lies in the tag byte, `123` in the pool offset). -/
theorem decode_encode_roundtrip_witness :
    (2 ^ 40 + 2 ^ 57 + 123 : Nat) ≠ 0 ∧ (2 ^ 40 + 2 ^ 57 + 123 : Nat) < 2 ^ 64 ∧
      freelistPoolInfo.baseMask < 2 ^ 64 ∧
      kPtrTagMask &&& freelistPoolInfo.baseMask = 0 ∧
      (2 ^ 40 + 2 ^ 57 + 123) &&& freelistPoolInfo.baseMask = freelistPoolInfo.base ∧
      DecodeFromOffset (EncodeToOffset freelistPoolInfo (2 ^ 40 + 2 ^ 57 + 123))
        freelistPoolInfo = 2 ^ 40 + 2 ^ 57 + 123 :=
  ⟨by decide, by decide, by decide, by decide, by decide,
   decode_encode_roundtrip freelistPoolInfo _ (by decide) (by decide) (by decide) (by decide)
     (by decide)⟩

/-- Witness for `getNext_detects_bitflip`: flipping bit 15 of the two-bit
offset `2^14 + 2^15` leaves a non-zero word and is caught as corruption. -/
theorem getNext_detects_bitflip_witness :
    compl64 (2 ^ 14 + 2 ^ 15) = compl64 (2 ^ 14 + 2 ^ 15) ∧
      ((2 ^ 14 + 2 ^ 15 : Nat) ^^^ 2 ^ 15) ≠ 0 ∧
      GetNextInternal false freelistPoolInfo (2 ^ 40 + 2 ^ 16)
        ⟨(2 ^ 14 + 2 ^ 15) ^^^ 2 ^ 15, compl64 (2 ^ 14 + 2 ^ 15)⟩ =
        GetNextResult.corruption :=
  ⟨rfl, by decide,
   getNext_detects_bitflip false freelistPoolInfo (2 ^ 40 + 2 ^ 16) (2 ^ 14 + 2 ^ 15)
     (compl64 (2 ^ 14 + 2 ^ 15)) 15 rfl (by decide)⟩

/-- A well-formed entry whose offset has a single set bit (`2^14`). -/
def singleBitEntry : PoolOffsetFreelistEntry :=
  { next := 2 ^ 14, shadow := compl64 (2 ^ 14) }

/-- `C5` counterexample — The claim fails for the flip of the *only* set bit
of `next_offset`: the well-formed entry `singleBitEntry` (its `get_next`
returns the decoded pointer) has non-zero `next_offset = 2^14`, yet flipping
bit 14 yields `0`, which the next `get_next` reads as a clean end-of-list
null — it neither signals corruption nor fails the well-formedness check. -/
theorem getNext_single_bit_flip_undetected :
    GetNextInternal false freelistPoolInfo (2 ^ 40 + 2 ^ 15) singleBitEntry =
      GetNextResult.next (2 ^ 40 + 2 ^ 14) ∧
    singleBitEntry.next ≠ 0 ∧
    GetNextInternal false freelistPoolInfo (2 ^ 40 + 2 ^ 15)
      { next := singleBitEntry.next ^^^ 2 ^ 14, shadow := singleBitEntry.shadow } =
      GetNextResult.nullNext ∧
    GetNextResult.nullNext ≠ GetNextResult.corruption :=
  ⟨by decide, by decide, by decide, by decide⟩

/-! ## Scheduler-Loop Quarantine (`scheduler_loop_quarantine.cc`)

The branch state and the root's atomic statistics are modelled as plain
records (the claims are sequential, so the locks and memory orders collapse).
Calls to the allocator root's `FreeNoHooksImmediate` are recorded in a free
log (the list of freed `slot_start`s, in call order); the RNG is an explicit
argument.  `slots_` is a vector whose *back* is the eviction point; it is
modelled as a list with the back at the *head* (so `push_back` is `cons` and
`pop_back` is the tail), and vector index `v` is list index `len - 1 - v`.
Zapping and the BRP ref-count epilogue touch object payloads, which the
model does not represent. -/

def kMaxFreeTimesPerPurge : Nat := 1024

structure QuarantineSlot where
  slotStart : Nat
  usableSize : Nat
  deriving DecidableEq

/-- The mutable state of `SchedulerLoopQuarantineBranch` (either template
instantiation; they differ in behaviour, not fields). -/
structure SchedulerLoopQuarantineBranch where
  enableQuarantine : Bool
  enableZapping : Bool
  leakOnDestruction : Bool
  pauseQuarantine : Nat
  slots : List QuarantineSlot
  branchSizeInBytes : Nat
  branchCapacityInBytes : Nat
  deriving DecidableEq

/-- The atomic statistics of `SchedulerLoopQuarantineRoot` (the
`allocator_root_` reference is replaced by the free log the operations
return). -/
structure SchedulerLoopQuarantineRoot where
  sizeInBytes : Nat
  count : Nat
  cumulativeCount : Nat
  cumulativeSizeInBytes : Nat
  quarantineMissCount : Nat
  deriving DecidableEq

/-- `std::swap(slots_[i], slots_[j])` on the list model. -/
def listSwap (l : List QuarantineSlot) (i j : Nat) : List QuarantineSlot :=
  match l[i]?, l[j]? with
  | some a, some b => (l.set i b).set j a
  | _, _ => l

/-- The post-insert shuffle: `swap(slots_[rand % size], slots_.back())`.
With the back at the head, vector index `rand % size` is list index
`size - 1 - rand % size`. -/
def shuffleSwap (slots : List QuarantineSlot) (rand : Nat) : List QuarantineSlot :=
  listSwap slots 0 (slots.length - 1 - rand % slots.length)

/-- `PurgeInternal(target_size_in_bytes)`: dequarantines back entries (freeing
each inline) while the branch holds more than `target` bytes.  Returns the
remaining slots, the remaining byte count, the freed `slot_start`s in call
order and the freed byte total; `none` models the `PA_DCHECK(!slots_.empty())`
failure (the loop needing a victim from an empty vector). -/
def purgeInternal (targetSizeInBytes : Nat) :
    List QuarantineSlot → Nat → Option (List QuarantineSlot × Nat × List Nat × Nat)
  | slots, size =>
    if targetSizeInBytes < size then
      match slots with
      | [] => none
      | toFree :: rest =>
        match purgeInternal targetSizeInBytes rest (size - toFree.usableSize) with
        | some (sl, sz, freed, freedBytes) =>
          some (sl, sz, toFree.slotStart :: freed, freedBytes + toFree.usableSize)
        | none => none
    else some (slots, size, [], 0)

/-- `PurgeInternalWithDefferedFree(target, to_be_freed, num_of_slots)`: like
`purgeInternal` but it stops after saving `kMaxFreeTimesPerPurge` victims
(`num_of_slots` counts entries already saved; the check runs right after the
increment).  The returned log is the `to_be_freed` array in save order, which
is also the order `BatchFree` frees them in after the lock is dropped. -/
def purgeInternalWithDefferedFree (targetSizeInBytes : Nat) :
    List QuarantineSlot → Nat → Nat → Option (List QuarantineSlot × Nat × List Nat × Nat)
  | slots, size, numOfSlots =>
    if targetSizeInBytes < size then
      match slots with
      | [] => none
      | toFree :: rest =>
        if numOfSlots + 1 ≥ kMaxFreeTimesPerPurge then
          some (rest, size - toFree.usableSize, [toFree.slotStart], toFree.usableSize)
        else
          match purgeInternalWithDefferedFree targetSizeInBytes rest
              (size - toFree.usableSize) (numOfSlots + 1) with
          | some (sl, sz, freed, freedBytes) =>
            some (sl, sz, toFree.slotStart :: freed, freedBytes + toFree.usableSize)
          | none => none
    else some (slots, size, [], 0)

/-- `Purge()`: `PurgeInternal(0)` then `slots_.shrink_to_fit()` (a
capacity-only operation).  Returns the new branch and root states and the
free log. -/
def branchPurge (br : SchedulerLoopQuarantineBranch) (rt : SchedulerLoopQuarantineRoot) :
    Option (SchedulerLoopQuarantineBranch × SchedulerLoopQuarantineRoot × List Nat) :=
  match purgeInternal 0 br.slots br.branchSizeInBytes with
  | some (sl, sz, freed, freedBytes) =>
    some ({ br with slots := sl, branchSizeInBytes := sz },
          { rt with sizeInBytes := rt.sizeInBytes - freedBytes,
                    count := rt.count - freed.length },
          freed)
  | none => none

/-- `SchedulerLoopQuarantineBranch<true>::Quarantine` (thread-bound): fast
reject (disabled, paused, or a direct-mapped bucket) frees the object
synchronously; an entry alone exceeding the capacity is freed synchronously
and counted as a quarantine miss; otherwise `PurgeInternal` makes room, the
entry is pushed and shuffled, and the root counters are bumped. -/
def quarantineThreadBound (br : SchedulerLoopQuarantineBranch)
    (rt : SchedulerLoopQuarantineRoot) (rand : Nat) (isDirectMappedBucket : Bool)
    (slotStart usableSize : Nat) :
    Option (SchedulerLoopQuarantineBranch × SchedulerLoopQuarantineRoot × List Nat) :=
  if !br.enableQuarantine || br.pauseQuarantine ≠ 0 || isDirectMappedBucket then
    some (br, rt, [slotStart])
  else if br.branchCapacityInBytes < usableSize then
    some (br, { rt with quarantineMissCount := rt.quarantineMissCount + 1 }, [slotStart])
  else
    match purgeInternal (br.branchCapacityInBytes - usableSize)
        br.slots br.branchSizeInBytes with
    | none => none
    | some (sl, sz, freed, freedBytes) =>
      some ({ br with slots := shuffleSwap (⟨slotStart, usableSize⟩ :: sl) rand,
                      branchSizeInBytes := sz + usableSize },
            { rt with sizeInBytes := rt.sizeInBytes - freedBytes + usableSize,
                      count := rt.count - freed.length + 1,
                      cumulativeCount := rt.cumulativeCount + 1,
                      cumulativeSizeInBytes := rt.cumulativeSizeInBytes + usableSize },
            freed)

/-- `SchedulerLoopQuarantineBranch<false>::Quarantine` (shared): as the
thread-bound variant, but room is made by the two-phase
`PurgeInternalWithDefferedFree` (at most `kMaxFreeTimesPerPurge` victims per
call), whose saved entries `BatchFree` then frees outside the lock. -/
def quarantineShared (br : SchedulerLoopQuarantineBranch)
    (rt : SchedulerLoopQuarantineRoot) (rand : Nat) (isDirectMappedBucket : Bool)
    (slotStart usableSize : Nat) :
    Option (SchedulerLoopQuarantineBranch × SchedulerLoopQuarantineRoot × List Nat) :=
  if !br.enableQuarantine || br.pauseQuarantine ≠ 0 || isDirectMappedBucket then
    some (br, rt, [slotStart])
  else if br.branchCapacityInBytes < usableSize then
    some (br, { rt with quarantineMissCount := rt.quarantineMissCount + 1 }, [slotStart])
  else
    match purgeInternalWithDefferedFree (br.branchCapacityInBytes - usableSize)
        br.slots br.branchSizeInBytes 0 with
    | none => none
    | some (sl, sz, freed, freedBytes) =>
      some ({ br with slots := shuffleSwap (⟨slotStart, usableSize⟩ :: sl) rand,
                      branchSizeInBytes := sz + usableSize },
            { rt with sizeInBytes := rt.sizeInBytes - freedBytes + usableSize,
                      count := rt.count - freed.length + 1,
                      cumulativeCount := rt.cumulativeCount + 1,
                      cumulativeSizeInBytes := rt.cumulativeSizeInBytes + usableSize },
            freed)

/-- `PurgeInternal` only returns once the branch holds at most `target`
bytes. -/
theorem purgeInternal_le (target : Nat) :
    ∀ slots size sl sz freed freedBytes,
      purgeInternal target slots size = some (sl, sz, freed, freedBytes) → sz ≤ target := by
  intro slots
  induction slots with
  | nil =>
    intro size sl sz freed freedBytes h
    rw [purgeInternal] at h
    split at h
    · exact absurd h (by simp)
    · simp only [Option.some.injEq, Prod.mk.injEq] at h
      omega
  | cons toFree rest ih =>
    intro size sl sz freed freedBytes h
    rw [purgeInternal] at h
    split at h
    · rcases hrec : purgeInternal target rest (size - toFree.usableSize) with - | ⟨sl', sz', freed', fb'⟩
      · rw [hrec] at h
        exact absurd h (by simp)
      · rw [hrec] at h
        simp only [Option.some.injEq, Prod.mk.injEq] at h
        obtain ⟨-, rfl, -, -⟩ := h
        exact ih _ _ _ _ _ hrec
    · simp only [Option.some.injEq, Prod.mk.injEq] at h
      omega

/-- `PurgeInternalWithDefferedFree` returns either once at most `target`
bytes remain, or after saving its `kMaxFreeTimesPerPurge`-th victim. -/
theorem purgeInternalWithDefferedFree_le_or_cap (target : Nat) :
    ∀ slots size num sl sz freed freedBytes, num < kMaxFreeTimesPerPurge →
      purgeInternalWithDefferedFree target slots size num =
        some (sl, sz, freed, freedBytes) →
      sz ≤ target ∨ freed.length + num = kMaxFreeTimesPerPurge := by
  intro slots
  induction slots with
  | nil =>
    intro size num sl sz freed freedBytes hnum h
    rw [purgeInternalWithDefferedFree] at h
    split at h
    · exact absurd h (by simp)
    · simp only [Option.some.injEq, Prod.mk.injEq] at h
      omega
  | cons toFree rest ih =>
    intro size num sl sz freed freedBytes hnum h
    rw [purgeInternalWithDefferedFree] at h
    split at h
    · split at h
      · rename_i hbreak
        simp only [Option.some.injEq, Prod.mk.injEq] at h
        obtain ⟨-, -, rfl, -⟩ := h
        right
        simp only [List.length_cons, List.length_nil]
        omega
      · rename_i hbreak
        rcases hrec : purgeInternalWithDefferedFree target rest (size - toFree.usableSize)
            (num + 1) with - | ⟨sl', sz', freed', fb'⟩
        · rw [hrec] at h
          exact absurd h (by simp)
        · rw [hrec] at h
          simp only [Option.some.injEq, Prod.mk.injEq] at h
          obtain ⟨-, rfl, rfl, -⟩ := h
          rcases ih _ _ _ _ _ _ (by omega) hrec with hle | hcap
          · exact Or.inl hle
          · right
            simp only [List.length_cons]
            omega
    · simp only [Option.some.injEq, Prod.mk.injEq] at h
      omega

/-- With positive entry sizes and an exact byte counter, `PurgeInternal(0)`
drains everything, freeing each entry once in eviction order. -/
theorem purgeInternal_zero (slots : List QuarantineSlot)
    (hpos : ∀ s ∈ slots, 0 < s.usableSize) :
    purgeInternal 0 slots (slots.map QuarantineSlot.usableSize).sum =
      some ([], 0, slots.map QuarantineSlot.slotStart,
            (slots.map QuarantineSlot.usableSize).sum) := by
  induction slots with
  | nil => rw [purgeInternal]; simp
  | cons s rest ih =>
    have hs : 0 < s.usableSize := hpos s (List.mem_cons_self _ _)
    have hrest : ∀ t ∈ rest, 0 < t.usableSize :=
      fun t ht => hpos t (List.mem_cons_of_mem _ ht)
    rw [purgeInternal]
    rw [if_pos (by simp only [List.map_cons, List.sum_cons]; omega)]
    have hsub : ((s :: rest).map QuarantineSlot.usableSize).sum - s.usableSize =
        (rest.map QuarantineSlot.usableSize).sum := by
      simp only [List.map_cons, List.sum_cons]; omega
    rw [hsub, ih hrest]
    simp only [List.map_cons, List.sum_cons, Option.some.injEq, Prod.mk.injEq,
      true_and, and_true]
    omega

/-- `C3` — After `Purge()` returns, the branch holds zero bytes and an empty
slot vector, and the allocator root received exactly one
`FreeNoHooksImmediate` call per previously held entry (the free log lists
their `slot_start`s in eviction order).  The hypotheses are the branch
invariants: `branch_size_in_bytes_` is the sum of the entries' usable sizes,
and every quarantined entry has a positive usable size (its slot span's
usable size). -/
theorem branchPurge_spec (br : SchedulerLoopQuarantineBranch)
    (rt : SchedulerLoopQuarantineRoot)
    (hsum : br.branchSizeInBytes = (br.slots.map QuarantineSlot.usableSize).sum)
    (hpos : ∀ s ∈ br.slots, 0 < s.usableSize) :
    branchPurge br rt = some
      ({ br with slots := [], branchSizeInBytes := 0 },
       { rt with sizeInBytes := rt.sizeInBytes - br.branchSizeInBytes,
                 count := rt.count - br.slots.length },
       br.slots.map QuarantineSlot.slotStart) := by
  rw [branchPurge, hsum, purgeInternal_zero br.slots hpos]
  simp [hsum]

/-- A two-entry branch used by the purge witness. -/
def purgeWitnessBranch : SchedulerLoopQuarantineBranch :=
  { enableQuarantine := true, enableZapping := false, leakOnDestruction := false,
    pauseQuarantine := 0, slots := [⟨3, 2⟩, ⟨4, 1⟩],
    branchSizeInBytes := 3, branchCapacityInBytes := 100 }

def witnessRoot : SchedulerLoopQuarantineRoot :=
  { sizeInBytes := 1030, count := 1030, cumulativeCount := 1030,
    cumulativeSizeInBytes := 1030, quarantineMissCount := 0 }

/-- Witness for `branchPurge_spec`: purging a two-entry branch frees both
entries (log `[3, 4]`) and zeroes the branch. -/
theorem branchPurge_spec_witness :
    purgeWitnessBranch.branchSizeInBytes =
      (purgeWitnessBranch.slots.map QuarantineSlot.usableSize).sum ∧
    (∀ s ∈ purgeWitnessBranch.slots, 0 < s.usableSize) ∧
    branchPurge purgeWitnessBranch witnessRoot = some
      ({ purgeWitnessBranch with slots := [], branchSizeInBytes := 0 },
       { witnessRoot with
          sizeInBytes := witnessRoot.sizeInBytes - purgeWitnessBranch.branchSizeInBytes,
          count := witnessRoot.count - purgeWitnessBranch.slots.length },
       purgeWitnessBranch.slots.map QuarantineSlot.slotStart) :=
  ⟨by decide, by decide,
   branchPurge_spec purgeWitnessBranch witnessRoot (by decide) (by decide)⟩

/-- `C2` (amended) — On an enabled, unpaused branch, a quarantine call whose
`usable_size` exceeds `capacity_bytes` *and whose span is not in a
direct-mapped bucket* frees the object synchronously (the free log is exactly
the object's slot), bumps `quarantine_miss_count` by exactly one, and leaves
the branch (slot vector, `size_bytes`) and the root's
count/cumulative/size counters untouched — in both branch variants.  A
direct-mapped span takes the fast-reject path first and skips the miss
counter (see the counterexample). -/
theorem quarantine_over_capacity (br : SchedulerLoopQuarantineBranch)
    (rt : SchedulerLoopQuarantineRoot) (rand : Nat) (slotStart usableSize : Nat)
    (hen : br.enableQuarantine = true) (hpa : br.pauseQuarantine = 0)
    (hcap : br.branchCapacityInBytes < usableSize) :
    quarantineThreadBound br rt rand false slotStart usableSize =
      some (br, { rt with quarantineMissCount := rt.quarantineMissCount + 1 },
            [slotStart]) ∧
    quarantineShared br rt rand false slotStart usableSize =
      some (br, { rt with quarantineMissCount := rt.quarantineMissCount + 1 },
            [slotStart]) := by
  constructor
  · rw [quarantineThreadBound, if_neg (by simp [hen, hpa]), if_pos hcap]
  · rw [quarantineShared, if_neg (by simp [hen, hpa]), if_pos hcap]

/-- An enabled, unpaused, empty branch with capacity 4 bytes. -/
def overCapBranch : SchedulerLoopQuarantineBranch :=
  { enableQuarantine := true, enableZapping := false, leakOnDestruction := false,
    pauseQuarantine := 0, slots := [], branchSizeInBytes := 0,
    branchCapacityInBytes := 4 }

/-- Witness for `quarantine_over_capacity`: a 10-byte entry against a 4-byte
capacity is freed synchronously with one quarantine miss. -/
theorem quarantine_over_capacity_witness :
    overCapBranch.enableQuarantine = true ∧ overCapBranch.pauseQuarantine = 0 ∧
    overCapBranch.branchCapacityInBytes < 10 ∧
    quarantineThreadBound overCapBranch witnessRoot 0 false 5 10 =
      some (overCapBranch,
            { witnessRoot with quarantineMissCount := witnessRoot.quarantineMissCount + 1 },
            [5]) :=
  ⟨rfl, rfl, by decide,
   (quarantine_over_capacity overCapBranch witnessRoot 0 5 10 rfl rfl (by decide)).1⟩

/-- `C2` counterexample — The claim as stated fails when the span is in a
direct-mapped bucket: the call is enabled, unpaused and over capacity
(`10 > 4`), the object is freed synchronously, but `quarantine_miss_count`
stays `0` instead of increasing by one (the fast-reject path runs first). -/
theorem quarantine_direct_mapped_no_miss :
    overCapBranch.enableQuarantine = true ∧ overCapBranch.pauseQuarantine = 0 ∧
    overCapBranch.branchCapacityInBytes < 10 ∧
    quarantineShared overCapBranch witnessRoot 0 true 5 10 =
      some (overCapBranch, witnessRoot, [5]) ∧
    witnessRoot.quarantineMissCount = 0 :=
  ⟨rfl, rfl, by decide, by decide, rfl⟩

/-- `C1` (amended) — On an enabled, unpaused branch with a non-direct-mapped
span and `usable_size ≤ capacity_bytes` (so the call inserts):
for the *thread-bound* branch the post-insert bound
`size_bytes ≤ capacity_bytes` always holds; for the *shared* branch it holds
unless the purge stopped at its `kMaxFreeTimesPerPurge` (1024) victim cap, in
which case `size_bytes` can exceed `capacity_bytes` (see the
counterexample). -/
theorem quarantine_capacity_bound (br : SchedulerLoopQuarantineBranch)
    (rt : SchedulerLoopQuarantineRoot) (rand : Nat) (slotStart usableSize : Nat)
    (hen : br.enableQuarantine = true) (hpa : br.pauseQuarantine = 0)
    (hcap : usableSize ≤ br.branchCapacityInBytes) :
    (∀ br' rt' freed,
      quarantineThreadBound br rt rand false slotStart usableSize =
        some (br', rt', freed) →
      br'.branchSizeInBytes ≤ br'.branchCapacityInBytes) ∧
    (∀ br' rt' freed,
      quarantineShared br rt rand false slotStart usableSize =
        some (br', rt', freed) →
      br'.branchSizeInBytes ≤ br'.branchCapacityInBytes ∨
        freed.length = kMaxFreeTimesPerPurge) := by
  constructor
  · intro br' rt' freed h
    rw [quarantineThreadBound, if_neg (by simp [hen, hpa]),
      if_neg (by omega)] at h
    rcases hp : purgeInternal (br.branchCapacityInBytes - usableSize)
        br.slots br.branchSizeInBytes with - | ⟨sl, sz, fr, fb⟩
    · rw [hp] at h
      exact absurd h (by simp)
    · rw [hp] at h
      have hle := purgeInternal_le _ _ _ _ _ _ _ hp
      simp only [Option.some.injEq, Prod.mk.injEq] at h
      obtain ⟨rfl, -, -⟩ := h
      simp only
      omega
  · intro br' rt' freed h
    rw [quarantineShared, if_neg (by simp [hen, hpa]),
      if_neg (by omega)] at h
    rcases hp : purgeInternalWithDefferedFree (br.branchCapacityInBytes - usableSize)
        br.slots br.branchSizeInBytes 0 with - | ⟨sl, sz, fr, fb⟩
    · rw [hp] at h
      exact absurd h (by simp)
    · rw [hp] at h
      have hle := purgeInternalWithDefferedFree_le_or_cap _ _ _ _ _ _ _ _
        (by rw [kMaxFreeTimesPerPurge]; omega) hp
      simp only [Option.some.injEq, Prod.mk.injEq] at h
      obtain ⟨rfl, -, rfl⟩ := h
      rcases hle with hle | hcapd
      · left
        simp only
        omega
      · right
        omega

/-- The branch and root after the capacity-bound witness call. -/
def capWitnessBranch : SchedulerLoopQuarantineBranch :=
  { overCapBranch with slots := [⟨7, 3⟩], branchSizeInBytes := 3 }

def capWitnessRoot : SchedulerLoopQuarantineRoot :=
  { witnessRoot with sizeInBytes := 1033, count := 1031, cumulativeCount := 1031,
                     cumulativeSizeInBytes := 1033 }

/-- Witness for `quarantine_capacity_bound`: a 3-byte entry into an empty
4-byte-capacity branch; the thread-bound insert leaves `size_bytes = 3 ≤ 4`. -/
theorem quarantine_capacity_bound_witness :
    overCapBranch.enableQuarantine = true ∧ overCapBranch.pauseQuarantine = 0 ∧
    (3 : Nat) ≤ overCapBranch.branchCapacityInBytes ∧
    quarantineThreadBound overCapBranch witnessRoot 0 false 7 3 =
      some (capWitnessBranch, capWitnessRoot, []) ∧
    capWitnessBranch.branchSizeInBytes ≤ capWitnessBranch.branchCapacityInBytes :=
  ⟨rfl, rfl, by decide, by decide,
   (quarantine_capacity_bound overCapBranch witnessRoot 0 7 3 rfl rfl (by decide)).1
     capWitnessBranch capWitnessRoot [] (by decide)⟩

/-- Closed form of the deferred purge on a branch of `n` one-byte entries
(slot start `9`) with target `0` and `k` victims already saved: it frees
exactly `kMaxFreeTimesPerPurge - k` further entries and stops at the victim
cap. -/
theorem purgeInternalWithDefferedFree_replicate :
    ∀ (n k : Nat), k < kMaxFreeTimesPerPurge → kMaxFreeTimesPerPurge - k ≤ n →
    purgeInternalWithDefferedFree 0 (List.replicate n ⟨9, 1⟩) n k =
      some (List.replicate (n - (kMaxFreeTimesPerPurge - k)) ⟨9, 1⟩,
            n - (kMaxFreeTimesPerPurge - k),
            List.replicate (kMaxFreeTimesPerPurge - k) 9,
            kMaxFreeTimesPerPurge - k) := by
  intro n
  induction n with
  | zero =>
    intro k hk hn
    exfalso
    omega
  | succ n ih =>
    intro k hk hn
    rw [List.replicate_succ, purgeInternalWithDefferedFree,
      if_pos (show (0 : Nat) < n + 1 by omega)]
    simp only
    by_cases hbr : k + 1 ≥ kMaxFreeTimesPerPurge
    · rw [if_pos hbr]
      have h1 : kMaxFreeTimesPerPurge - k = 1 := by omega
      rw [h1]
      simp
    · rw [if_neg hbr]
      have e2 : n + 1 - 1 = n := by omega
      rw [e2, ih (k + 1) (by omega) (by omega)]
      have e1 : kMaxFreeTimesPerPurge - k = (kMaxFreeTimesPerPurge - (k + 1)) + 1 := by
        omega
      have e3 : n + 1 - (kMaxFreeTimesPerPurge - k) =
          n - (kMaxFreeTimesPerPurge - (k + 1)) := by omega
      rw [e3, e1, List.replicate_succ]

/-- A shared branch at capacity: 1030 live one-byte entries. -/
def overEvictBranch : SchedulerLoopQuarantineBranch :=
  { enableQuarantine := true, enableZapping := false, leakOnDestruction := false,
    pauseQuarantine := 0, slots := List.replicate 1030 ⟨9, 1⟩,
    branchSizeInBytes := 1030, branchCapacityInBytes := 1030 }

/-- `C1` counterexample — On the shared branch `overEvictBranch` (1030
one-byte entries, `size_bytes = capacity_bytes = 1030`, the size invariant
holding), quarantining a 1030-byte object (which fits the capacity, so the
call inserts) evicts only `kMaxFreeTimesPerPurge = 1024` victims and ends
with `size_bytes = 1036 > capacity_bytes = 1030`: the claimed bound fails
for the shared variant. -/
theorem shared_quarantine_exceeds_capacity :
    overEvictBranch.enableQuarantine = true ∧
    overEvictBranch.pauseQuarantine = 0 ∧
    (1030 : Nat) ≤ overEvictBranch.branchCapacityInBytes ∧
    overEvictBranch.branchSizeInBytes =
      (overEvictBranch.slots.map QuarantineSlot.usableSize).sum ∧
    ((quarantineShared overEvictBranch witnessRoot 0 false 7 1030).map
      fun s => (s.1.branchSizeInBytes, s.1.branchCapacityInBytes, s.2.2.length)) =
      some (1036, 1030, 1024) ∧
    ¬ ((1036 : Nat) ≤ 1030) := by
  refine ⟨rfl, rfl, by decide, ?_, ?_, by decide⟩
  · show (1030 : Nat) = (List.replicate 1030 (⟨9, 1⟩ : QuarantineSlot) |>.map
      QuarantineSlot.usableSize).sum
    rw [List.map_replicate, List.sum_replicate]
    simp
  · rw [quarantineShared, if_neg (by decide), if_neg (by decide)]
    simp only [overEvictBranch]
    rw [Nat.sub_self, purgeInternalWithDefferedFree_replicate 1030 0 (by decide) (by decide),
      Nat.sub_zero]
    simp only [Option.map_some', List.length_replicate, Prod.mk.injEq]
    norm_num [kMaxFreeTimesPerPurge]

/-! ## SLQ runtime stats (`scheduler_loop_quarantine_runtime_stats.cc`)

`base::TimeTicks` and `base::TimeDelta` are nanosecond counts modelled as
`Int`, with `0` as the null/zero sentinel (`is_null()` / `is_zero()`).  The
per-bucket vectors (`kNumBuckets` entries) are modelled as functions from the
bucket index.  `int64_t` division truncates toward zero, i.e. `Int.div`. -/

def kMaxTimesToTrack : Nat := 1024

/-- `SchedulerLoopQuarantineRuntimeStats::BucketStats`. -/
structure BucketStats where
  paused : Nat
  cycled : Nat
  valid : Bool
  idx : Nat
  reportedIdx : Nat
  sumNs : Int
  averageNs : Int
  bucketTimes : Nat → Int

/-- The member initializers of `BucketStats` (all counters zero, the window
invalid, `reported_idx_` one slot behind so the window must fill once). -/
def BucketStats.initial : BucketStats :=
  { paused := 0, cycled := 0, valid := false, idx := 0,
    reportedIdx := kMaxTimesToTrack - 1, sumNs := 0, averageNs := 0,
    bucketTimes := fun _ => 0 }

/-- `BucketStats::Reset()` (note: `paused_`, `cycled_` and the stored times
are left alone). -/
def BucketStats.reset (b : BucketStats) : BucketStats :=
  { b with valid := false, idx := 0, sumNs := 0, averageNs := 0,
           reportedIdx := kMaxTimesToTrack - 1 }

/-- `BucketStats::Reported()`. -/
def BucketStats.reported (b : BucketStats) : BucketStats :=
  if b.valid then { b with paused := 0, cycled := 0, reportedIdx := b.idx } else b

/-- `BucketStats::RecordValue(value_ns)`: rolling-window insert.  A zero
value contributes `1` to the running sum; the displaced value is subtracted
once the window is valid; the window becomes valid when the index reaches
`reported_idx_`; the integer average is refreshed while valid. -/
def BucketStats.recordValue (b : BucketStats) (valueNs : Int) : BucketStats :=
  let sumNs := b.sumNs + (if valueNs ≠ 0 then valueNs else 1) -
    (if b.valid then b.bucketTimes b.idx else 0)
  let bucketTimes := fun j => if j = b.idx then valueNs else b.bucketTimes j
  let valid := if b.idx = b.reportedIdx then true else b.valid
  let cycled := if b.idx = b.reportedIdx then b.cycled + 1 else b.cycled
  let idx := if b.idx = kMaxTimesToTrack - 1 then 0 else b.idx + 1
  { b with sumNs := sumNs, bucketTimes := bucketTimes, valid := valid,
           cycled := cycled, idx := idx,
           averageNs := if valid then Int.tdiv sumNs (Int.ofNat kMaxTimesToTrack)
                        else b.averageNs }

/-- `SchedulerLoopQuarantineRuntimeStats`. -/
structure SchedulerLoopQuarantineRuntimeStats where
  initialized : Bool
  maxAboveAvgZapDelta : Int
  longZapPauseDelta : Int
  pauseUntil : Int
  zapBuckets : Nat → BucketStats
  purgeBuckets : Nat → BucketStats
  totalTimeBuckets : Nat → BucketStats

/-- A default-constructed tracker. -/
def initialRuntimeStats : SchedulerLoopQuarantineRuntimeStats :=
  { initialized := false, maxAboveAvgZapDelta := 0, longZapPauseDelta := 0,
    pauseUntil := 0, zapBuckets := fun _ => BucketStats.initial,
    purgeBuckets := fun _ => BucketStats.initial,
    totalTimeBuckets := fun _ => BucketStats.initial }

/-- Point update of one bucket vector. -/
def updateBucket (f : Nat → BucketStats) (i : Nat) (g : BucketStats → BucketStats) :
    Nat → BucketStats :=
  fun j => if j = i then g (f j) else f j

/-- `SchedulerLoopQuarantineRuntimeStats::AddStats`.  The zap bucket's
average is read *before* the new zap time is recorded; the pause fires only
when the (just-updated) zap bucket is valid, a non-zero zap time was
measured, `max_above_avg_zap_delta_` is configured, and the zap time exceeds
the old average by more than that delta. -/
def addStats (st : SchedulerLoopQuarantineRuntimeStats) (bucketIndex : Nat)
    (quarantineStart purgeStart zapStart quarantineEnd : Int) :
    SchedulerLoopQuarantineRuntimeStats :=
  if ¬ st.initialized then st
  else
    let averageNs := (st.zapBuckets bucketIndex).averageNs
    let st1 := { st with
      totalTimeBuckets := updateBucket st.totalTimeBuckets bucketIndex
        (fun b => b.recordValue (quarantineEnd - quarantineStart)) }
    let zapTime : Int := if zapStart ≠ 0 then quarantineEnd - zapStart else 0
    let st2 :=
      if zapStart ≠ 0 then
        { st1 with
          purgeBuckets := updateBucket st1.purgeBuckets bucketIndex
            (fun b => b.recordValue (zapStart - purgeStart)),
          zapBuckets := updateBucket st1.zapBuckets bucketIndex
            (fun b => b.recordValue (quarantineEnd - zapStart)) }
      else if purgeStart ≠ 0 then
        { st1 with
          purgeBuckets := updateBucket st1.purgeBuckets bucketIndex
            (fun b => b.recordValue (quarantineEnd - purgeStart)) }
      else st1
    if ¬ (st2.zapBuckets bucketIndex).valid ∨
        ¬ (st.maxAboveAvgZapDelta ≠ 0 ∧ zapTime ≠ 0) then st2
    else if zapTime - averageNs > st.maxAboveAvgZapDelta then
      { st2 with
        pauseUntil := quarantineEnd + st.longZapPauseDelta,
        zapBuckets := updateBucket st2.zapBuckets bucketIndex
          (fun b => { b with paused := b.paused + 1 }) }
    else st2

/-- `SchedulerLoopQuarantineRuntimeStats::InitOrResetStats`. -/
def initOrResetStats (st : SchedulerLoopQuarantineRuntimeStats)
    (pauseDelay maxAboveAvgZapDelta : Int) : SchedulerLoopQuarantineRuntimeStats :=
  let st1 :=
    if ¬ st.initialized then
      { st with initialized := true,
                zapBuckets := fun _ => BucketStats.initial,
                purgeBuckets := fun _ => BucketStats.initial,
                totalTimeBuckets := fun _ => BucketStats.initial }
    else
      { st with zapBuckets := fun i => (st.zapBuckets i).reset,
                purgeBuckets := fun i => (st.purgeBuckets i).reset,
                totalTimeBuckets := fun i => (st.totalTimeBuckets i).reset }
  { st1 with longZapPauseDelta := pauseDelay, maxAboveAvgZapDelta := maxAboveAvgZapDelta }

/-- `SchedulerLoopQuarantineRuntimeStats::ShouldPause(start)`. -/
def shouldPause (st : SchedulerLoopQuarantineRuntimeStats) (start : Int) : Bool :=
  if ¬ st.initialized ∨ st.pauseUntil = 0 ∨ start = 0 then false
  else decide (start < st.pauseUntil)

/-- `C9` (amended) — With the tracker initialized and configured
(`max_above_avg_zap_delta > 0`, `long_zap_pause_delta > 0`), a recorded
non-zero zap time that exceeds the bucket's rolling average (read before the
record) by more than the delta, *and whose bucket window is valid once the
sample is recorded*, sets `pause_until = quarantine_end + long_zap_pause_delta`;
subsequent `should_pause(t)` with non-null `t` returns true exactly while
`t < pause_until`.  Before the bucket's 1024-sample window has filled once,
no pause fires (see the counterexample). -/
theorem addStats_long_zap_pauses (st : SchedulerLoopQuarantineRuntimeStats)
    (idx : Nat) (qs ps zs qe : Int)
    (hinit : st.initialized = true)
    (hmax : 0 < st.maxAboveAvgZapDelta)
    (hpause : 0 < st.longZapPauseDelta)
    (hzs : zs ≠ 0) (hzt : qe - zs ≠ 0)
    (hvalid : ((st.zapBuckets idx).recordValue (qe - zs)).valid = true)
    (hexceed : (qe - zs) - (st.zapBuckets idx).averageNs > st.maxAboveAvgZapDelta)
    (hqe : 0 ≤ qe) :
    (addStats st idx qs ps zs qe).pauseUntil = qe + st.longZapPauseDelta ∧
    ∀ t : Int, t ≠ 0 →
      (shouldPause (addStats st idx qs ps zs qe) t = true ↔
        t < qe + st.longZapPauseDelta) := by
  have hmax' : st.maxAboveAvgZapDelta ≠ 0 := by omega
  have hkey : (addStats st idx qs ps zs qe).pauseUntil = qe + st.longZapPauseDelta ∧
      (addStats st idx qs ps zs qe).initialized = true := by
    rw [addStats]
    rw [if_neg (by simp [hinit])]
    simp [updateBucket, hzs, hvalid, hzt, hmax', hexceed, hinit]
  refine ⟨hkey.1, fun t ht => ?_⟩
  rw [shouldPause]
  rw [if_neg (by
    push_neg
    refine ⟨by simp [hkey.2], by rw [hkey.1]; omega, ht⟩)]
  rw [hkey.1]
  exact decide_eq_true_iff

/-- The tracker used by the pause witness: freshly configured with
`long_zap_pause_delta = 10`, `max_above_avg_zap_delta = 5`, and a zap bucket
whose window validates on the next sample. -/
def statsWitness : SchedulerLoopQuarantineRuntimeStats :=
  { initOrResetStats initialRuntimeStats 10 5 with
    zapBuckets := fun _ => { BucketStats.initial with reportedIdx := 0 } }

/-- Witness for `addStats_long_zap_pauses`: a 97 ns zap against a 0 ns
average with delta 5 pauses until `100 + 10`. -/
theorem addStats_long_zap_pauses_witness :
    statsWitness.initialized = true ∧
    0 < statsWitness.maxAboveAvgZapDelta ∧
    0 < statsWitness.longZapPauseDelta ∧
    ((statsWitness.zapBuckets 0).recordValue (100 - 3)).valid = true ∧
    (100 - 3 : Int) - (statsWitness.zapBuckets 0).averageNs >
      statsWitness.maxAboveAvgZapDelta ∧
    (addStats statsWitness 0 1 2 3 100).pauseUntil =
      100 + statsWitness.longZapPauseDelta ∧
    shouldPause (addStats statsWitness 0 1 2 3 100) 105 = true :=
  ⟨by decide, by decide, by decide, by decide, by decide,
   (addStats_long_zap_pauses statsWitness 0 1 2 3 100 (by decide) (by decide) (by decide)
     (by decide) (by decide) (by decide) (by decide) (by decide)).1,
   ((addStats_long_zap_pauses statsWitness 0 1 2 3 100 (by decide) (by decide) (by decide)
     (by decide) (by decide) (by decide) (by decide) (by decide)).2 105
     (by decide)).mpr (by decide)⟩

/-- `C9` counterexample — On a freshly configured tracker
(`max_above_avg_zap_delta = 5 > 0`, `long_zap_pause_delta = 10 > 0`), the
very first recorded zap time (97 ns) exceeds the bucket's rolling average
(0 ns) by more than the delta, yet — the 1024-sample window not having
filled, so the bucket is still invalid — `pause_until` stays null and
`should_pause` remains false, contrary to the claim. -/
theorem addStats_invalid_bucket_no_pause :
    (initOrResetStats initialRuntimeStats 10 5).initialized = true ∧
    (initOrResetStats initialRuntimeStats 10 5).maxAboveAvgZapDelta = 5 ∧
    (initOrResetStats initialRuntimeStats 10 5).longZapPauseDelta = 10 ∧
    ((100 - 3 : Int) -
      ((initOrResetStats initialRuntimeStats 10 5).zapBuckets 0).averageNs > 5) ∧
    (addStats (initOrResetStats initialRuntimeStats 10 5) 0 1 2 3 100).pauseUntil = 0 ∧
    shouldPause (addStats (initOrResetStats initialRuntimeStats 10 5) 0 1 2 3 100) 50 =
      false :=
  ⟨by decide, by decide, by decide, by decide, by decide, by decide⟩

end PartitionAllocProof
